import Mathlib

/-!
Verification development for the World Bank data explorer repository
(`ainab-indata`).

Strings are modelled as `List Char`; JavaScript numbers are modelled
exactly, as `ℚ` for finite values with explicit constructors for the
non-finite results `NaN` and `Infinity` that the JS numeric parsers can
produce.  Each definition below is a shallow embedding of a function of
the repository (the TypeScript source file and function are named in its
doc comment); JS built-ins (`String.prototype.trim`, `split`, `replace`,
`parseInt`, `parseFloat`, `Map.set`, …) are embedded with their ECMAScript
semantics restricted to the fragments the code exercises.
-/

/-- ECMAScript white space and line terminators: the character class `\s`
used by the sanitizer regexes, `String.prototype.trim`, and the numeric
parsers (code points 9–13, 32, 160, 5760, 8192–8202, 8232, 8233, 8239,
8287, 12288, 65279). -/
def isJsWhitespace (c : Char) : Bool :=
  decide (c.toNat = 9 ∨ c.toNat = 10 ∨ c.toNat = 11 ∨ c.toNat = 12 ∨
    c.toNat = 13 ∨ c.toNat = 32 ∨ c.toNat = 160 ∨ c.toNat = 5760 ∨
    (8192 ≤ c.toNat ∧ c.toNat ≤ 8202) ∨ c.toNat = 8232 ∨ c.toNat = 8233 ∨
    c.toNat = 8239 ∨ c.toNat = 8287 ∨ c.toNat = 12288 ∨ c.toNat = 65279)

/-- The character class `[a-z0-9]`. -/
def isLowerAlnum (c : Char) : Bool :=
  decide ((97 ≤ c.toNat ∧ c.toNat ≤ 122) ∨ (48 ≤ c.toNat ∧ c.toNat ≤ 57))

/-- The character class `[0-9]` (regex `\d`). -/
def isDigitChar (c : Char) : Bool :=
  decide (48 ≤ c.toNat ∧ c.toNat ≤ 57)

/-- The character class `[a-z0-9\s-]` kept by the sanitizer's first
`replace` (everything else is stripped). -/
def keepChar (c : Char) : Bool :=
  isLowerAlnum c || isJsWhitespace c || c = '-'

/-- `String.prototype.toLowerCase`, applied character-wise; modelled by
`Char.toLower` (the ASCII range, which is all the sanitizer's later
stages can distinguish). -/
def jsToLower (s : List Char) : List Char :=
  s.map Char.toLower

/-- `String.prototype.trim`: drop ECMAScript white space from both ends. -/
def jsTrim (s : List Char) : List Char :=
  ((s.dropWhile isJsWhitespace).reverse.dropWhile isJsWhitespace).reverse

/-- `String.prototype.split(sep)` for a single-character separator:
always returns at least one (possibly empty) field. -/
def splitOnChar (sep : Char) : List Char → List (List Char)
  | [] => [[]]
  | c :: rest =>
    let r := splitOnChar sep rest
    if c = sep then [] :: r else (c :: r.headD []) :: r.tail

/-- `.replace(/"/g, '')`: remove every double-quote character. -/
def stripQuotes (s : List Char) : List Char :=
  s.filter (fun c => c ≠ '"')

/-- Helper for global regex replacement of runs: replaces every maximal
run of characters satisfying `p` by the single character `rep`; the flag
records whether the previous input character was inside a run. -/
def collapseRunsAux (p : Char → Bool) (rep : Char) : List Char → Bool → List Char
  | [], _ => []
  | c :: rest, inRun =>
    if p c then
      if inRun then collapseRunsAux p rep rest true
      else rep :: collapseRunsAux p rep rest true
    else c :: collapseRunsAux p rep rest false

/-- `.replace(/p+/g, rep)`: collapse each maximal run of `p`-characters
to one `rep`. -/
def collapseRuns (p : Char → Bool) (rep : Char) (s : List Char) : List Char :=
  collapseRunsAux p rep s false

/-- The character class `[-]` of the hyphen-collapsing regex `-+`. -/
def isHyphenChar (c : Char) : Bool := decide (c = '-')

/-- `.replace(/(^-)|(-$)/g, '')`: remove one leading and one trailing
hyphen when present. -/
def trimEdgeHyphens (s : List Char) : List Char :=
  let s1 := if s.head? = some '-' then s.tail else s
  if s1.getLast? = some '-' then s1.dropLast else s1

/-- `sanitizeFilename` from `scripts/split-worldbank-data.ts` (lines
29–36): lowercase, strip characters outside `[a-z0-9\s-]`, collapse
whitespace runs to a hyphen, collapse hyphen runs, trim edge hyphens.
The metadata utility's `getFilename` inlines the same five steps. -/
def sanitizeFilename (s : List Char) : List Char :=
  trimEdgeHyphens (collapseRuns isHyphenChar '-'
    (collapseRuns isJsWhitespace '-' ((jsToLower s).filter keepChar)))

/-- `createFilename` from `scripts/split-worldbank-data.ts` (lines
41–45): `sanitize(countryCode) + "-" + sanitize(seriesCode) + ".csv"`. -/
def createFilename (countryCode seriesCode : List Char) : List Char :=
  sanitizeFilename countryCode ++ '-' :: (sanitizeFilename seriesCode ++ ".csv".toList)

/-- `getFilenameFromCodes` from `src/examples/github-data-fetch.ts`
(lines 122–124): lowercases the country code verbatim and strips every
character outside `[a-z0-9]` from the lowercased series code. -/
def getFilenameFromCodes (countryCode seriesCode : List Char) : List Char :=
  jsToLower countryCode ++ '-' :: ((jsToLower seriesCode).filter isLowerAlnum ++ ".csv".toList)


/-- Numeric value of a decimal digit character. -/
def decVal (c : Char) : Nat := c.toNat - 48

/-- The character class `[0-9a-fA-F]`. -/
def isHexDigit (c : Char) : Bool :=
  isDigitChar c || decide ((97 ≤ c.toNat ∧ c.toNat ≤ 102) ∨ (65 ≤ c.toNat ∧ c.toNat ≤ 70))

/-- Numeric value of a hexadecimal digit character. -/
def hexVal (c : Char) : Nat :=
  if c.toNat ≤ 57 then c.toNat - 48 else if c.toNat ≤ 70 then c.toNat - 55 else c.toNat - 87

/-- Reads a digit list most-significant first. -/
def digitsToNat (base : Nat) (val : Char → Nat) (l : List Char) : Nat :=
  l.foldl (fun acc c => acc * base + val c) 0

/-- Shared leading-sign handling of `parseInt` / `parseFloat`: consume one
optional `+` or `-`. -/
def jsSign : List Char → Bool × List Char
  | c :: rest => if c = '-' then (true, rest) else if c = '+' then (false, rest) else (false, c :: rest)
  | [] => (false, [])

/-- A JavaScript number that is not `NaN`: `±Infinity` or a finite value
(finite doubles are modelled exactly as rationals). -/
inductive JsNum
  | inf (neg : Bool)
  | num (q : ℚ)
deriving DecidableEq

/-- ECMAScript `parseInt(s)` with no radix argument: skip leading white
space, one optional sign, a `0x`/`0X` prefix selecting hexadecimal, then
the longest digit prefix; `none` models `NaN` (no digits). -/
def jsParseInt (s : List Char) : Option Int :=
  let t := s.dropWhile isJsWhitespace
  let st := jsSign t
  let hex : Option (List Char) := match st.2 with
    | '0' :: x :: rest => if x = 'x' ∨ x = 'X' then some rest else none
    | _ => none
  match hex with
  | some rest =>
    let ds := rest.takeWhile isHexDigit
    if ds = [] then none
    else some (cond st.1 (-(digitsToNat 16 hexVal ds : Int)) (digitsToNat 16 hexVal ds : Int))
  | none =>
    let ds := st.2.takeWhile isDigitChar
    if ds = [] then none
    else some (cond st.1 (-(digitsToNat 10 decVal ds : Int)) (digitsToNat 10 decVal ds : Int))

/-- The optional exponent part of a `parseFloat` literal: `e`/`E`, an
optional sign and at least one digit; anything else contributes
exponent 0 (the exponent is then not part of the longest valid prefix). -/
def jsExponent : List Char → Int
  | c :: rest =>
    if c = 'e' ∨ c = 'E' then
      let st := jsSign rest
      let ds := st.2.takeWhile isDigitChar
      if ds = [] then 0
      else cond st.1 (-(digitsToNat 10 decVal ds : Int)) (digitsToNat 10 decVal ds : Int)
    else 0
  | [] => 0

/-- ECMAScript `parseFloat(s)`: skip leading white space, one optional
sign, then the longest prefix that is `Infinity` or a decimal literal
`digits [. digits] [exponent]` with at least one digit; `none` models
`NaN`. -/
def jsParseFloat (s : List Char) : Option JsNum :=
  let t := s.dropWhile isJsWhitespace
  let st := jsSign t
  match st.2 with
  | 'I' :: 'n' :: 'f' :: 'i' :: 'n' :: 'i' :: 't' :: 'y' :: _ => some (JsNum.inf st.1)
  | t1 =>
    let d1 := t1.takeWhile isDigitChar
    let r1 := t1.dropWhile isDigitChar
    let fr : List Char × List Char := match r1 with
      | '.' :: rest => (rest.takeWhile isDigitChar, rest.dropWhile isDigitChar)
      | _ => ([], r1)
    if d1 = [] ∧ fr.1 = [] then none
    else
      let mant : Int := digitsToNat 10 decVal (d1 ++ fr.1)
      let signed : Int := cond st.1 (-mant) mant
      let e : Int := jsExponent fr.2
      some (JsNum.num (if 0 ≤ e then mkRat (signed * (10 : Int) ^ e.toNat) (10 ^ fr.1.length)
        else mkRat signed (10 ^ (fr.1.length + e.natAbs))))


/-- The `value` field of a parsed `(year, value)` point: JS `null`, or a
number (`NaN`, `±Infinity`, or finite). -/
inductive ParsedValue
  | null
  | nan
  | inf (neg : Bool)
  | num (q : ℚ)
deriving DecidableEq

/-- One emitted point of the Explorer's per-entity CSV parser; `year` is
`none` when `parseInt` produced `NaN`. -/
structure YearValuePoint where
  year : Option Int
  value : ParsedValue
deriving DecidableEq

/-- The cell mapping of `parseYearValueLine`: the empty string and the
sentinel `".."` map to `null`, everything else goes through
`parseFloat`. -/
def parseCellValue (v : List Char) : ParsedValue :=
  if v = [] ∨ v = "..".toList then ParsedValue.null
  else match jsParseFloat v with
    | none => ParsedValue.nan
    | some (JsNum.inf n) => ParsedValue.inf n
    | some (JsNum.num q) => ParsedValue.num q

/-- `parseYearValueLine` from `src/examples/github-data-fetch.ts` (lines
111–117): split the line on commas, trim and strip quotes from each
field, `parseInt` the first as the year and map the second through the
null/sentinel/`parseFloat` cascade.  When the line has no second field
the destructured `value` is `undefined`, which fails both sentinel
comparisons and makes `parseFloat` return `NaN`. -/
def parseYearValueLine (line : List Char) : YearValuePoint :=
  let parts := (splitOnChar ',' line).map (fun v => stripQuotes (jsTrim v))
  let value : ParsedValue := match parts[1]? with
    | none => ParsedValue.nan
    | some v => parseCellValue v
  { year := jsParseInt (parts.headD []), value := value }

/-- The per-entity CSV body parser shared by `useCountrySeriesData`
(lines 274–295) and `useMultiCountryData` (lines 322–343) of
`src/examples/github-data-fetch.ts`:
`csvText.trim().split('\n').slice(1).map(parseYearValueLine).filter(item => !isNaN(item.year))`. -/
def parseDataCsv (csvText : List Char) : List YearValuePoint :=
  (((splitOnChar '\n' (jsTrim csvText)).drop 1).map parseYearValueLine).filter
    (fun p => p.year.isSome)


/-- Matches the regex `\d{4} \[YR\d{4}\]` at the head of the list. -/
def yearColMatchAt : List Char → Bool
  | d1 :: d2 :: d3 :: d4 :: ' ' :: '[' :: 'Y' :: 'R' :: e1 :: e2 :: e3 :: e4 :: ']' :: _ =>
    isDigitChar d1 && isDigitChar d2 && isDigitChar d3 && isDigitChar d4 &&
      isDigitChar e1 && isDigitChar e2 && isDigitChar e3 && isDigitChar e4
  | _ => false

/-- `/\d{4} \[YR\d{4}\]/.test(header)` from the pipeline's `headers`
handler (`scripts/split-worldbank-data.ts` line 269): the pattern occurs
somewhere in the header label. -/
def yearColTest (h : List Char) : Bool :=
  h.tails.any yearColMatchAt

/-- `/\d{4}/.exec(yearCol)`: the first run of four consecutive digits,
`none` when there is none (`writeCountryDatasetFile`, lines 87–91). -/
def firstYearMatch : List Char → Option (List Char)
  | [] => none
  | a :: rest =>
    match rest with
    | b :: c :: d :: _ =>
      if isDigitChar a && isDigitChar b && isDigitChar c && isDigitChar d
      then some [a, b, c, d] else firstYearMatch rest
    | _ => none

/-- A JavaScript `Map` as an insertion-ordered association list;
`mapSet` is `Map.set`: replace in place when the key exists, append
otherwise. -/
def mapSet {K V : Type} [DecidableEq K] (m : List (K × V)) (k : K) (v : V) :
    List (K × V) :=
  if m.any (fun p => decide (p.1 = k)) then
    m.map (fun p => if p.1 = k then (k, v) else p)
  else m ++ [(k, v)]

/-- `Map.get`: the value stored under `k`, `none` for `undefined`. -/
def mapGet {K V : Type} [DecidableEq K] (m : List (K × V)) (k : K) : Option V :=
  (m.find? (fun p => decide (p.1 = k))).map (fun p => p.2)

/-- A csv-parser row object of the pipeline input: the four named
columns plus the year columns as header-label → raw-cell pairs
(`row[col]` is `lookupCell`; a column absent from the object is
JavaScript `undefined`, modelled as `none`). -/
structure SourceRow where
  countryName : List Char
  countryCode : List Char
  seriesName : List Char
  seriesCode : List Char
  cells : List (List Char × List Char)
deriving DecidableEq

/-- `row[col]` for the year columns of a csv-parser row object. -/
def lookupCell (cells : List (List Char × List Char)) (col : List Char) :
    Option (List Char) :=
  (cells.find? (fun p => decide (p.1 = col))).map (fun p => p.2)

/-- The `ProcessedRow` record built by the pipeline's `data` handler
(`scripts/split-worldbank-data.ts` lines 273–294): `yearlyData` keeps,
for every year column, the row's raw cell (possibly `undefined`). -/
structure ProcessedRow where
  countryName : List Char
  countryCode : List Char
  seriesName : List Char
  seriesCode : List Char
  yearlyData : List (List Char × Option (List Char))
deriving DecidableEq

/-- The template-literal map key `` `${row['Country Code']}-${row['Series Code']}` ``. -/
def mkKey (countryCode seriesCode : List Char) : List Char :=
  countryCode ++ '-' :: seriesCode

/-- The `data` handler body for one row: extract the yearly cells and
build the `ProcessedRow`. -/
def processRow (yearCols : List (List Char)) (row : SourceRow) : ProcessedRow :=
  { countryName := row.countryName
    countryCode := row.countryCode
    seriesName := row.seriesName
    seriesCode := row.seriesCode
    yearlyData := yearCols.map (fun yc => (yc, lookupCell row.cells yc)) }

/-- The `processedData` map after the whole stream has been consumed:
`processedData.set(key, …)` for every row, in order (same-key rows
overwrite, last write wins). -/
def pipelineMap (yearCols : List (List Char)) (rows : List SourceRow) :
    List (List Char × ProcessedRow) :=
  rows.foldl
    (fun m row => mapSet m (mkKey row.countryCode row.seriesCode) (processRow yearCols row)) []

/-- `value || ''`: JavaScript `undefined` and the empty string are the
only falsy cells, every other string passes through verbatim. -/
def jsOrEmpty : Option (List Char) → List Char
  | none => []
  | some v => v

/-- `data.yearlyData[yearCol]`: `undefined` both when the key is absent
and when the stored cell was `undefined`. -/
def yearlyGet (data : ProcessedRow) (yc : List Char) : Option (List Char) :=
  ((data.yearlyData.find? (fun p => decide (p.1 = yc))).map (fun p => p.2)).join

/-- The `(year, value)` records `writeCountryDatasetFile` writes
(`scripts/split-worldbank-data.ts` lines 86–95): one record per year
column whose label contains a four-digit run, in year-column order, the
value rendered through `value || ''`. -/
def entityRecords (yearCols : List (List Char)) (data : ProcessedRow) :
    List (List Char × List Char) :=
  yearCols.filterMap (fun yc =>
    (firstYearMatch yc).map (fun y => (y, jsOrEmpty (yearlyGet data yc))))

/-- A `(name, code)` entry of the countries / series lookup tables. -/
structure NamedCode where
  name : List Char
  code : List Char
deriving DecidableEq

/-- Code-point lexicographic string order, modelling the
`localeCompare`-based sort comparators (order details are locale
dependent in JS; no claim below depends on the order itself). -/
def strLe : List Char → List Char → Bool
  | [], _ => true
  | _ :: _, [] => false
  | a :: as, b :: bs => if a = b then strLe as bs else decide (a.toNat ≤ b.toNat)

/-- Insert into a sorted list (kept ahead of the first element it is
`le`-below). -/
def insertSorted {α : Type} (le : α → α → Bool) (x : α) : List α → List α
  | [] => [x]
  | y :: ys => if le x y then x :: y :: ys else y :: insertSorted le x ys

/-- `Array.prototype.sort(comparator)`, modelled as insertion sort. -/
def sortByLe {α : Type} (le : α → α → Bool) (l : List α) : List α :=
  l.foldr (insertSorted le) []

/-- The `countriesMap` of `createOptimizedMetadataFiles` (lines
118–135): keyed by country code, one `set` per processed entry. -/
def countriesMapOf (m : List (List Char × ProcessedRow)) :
    List (List Char × NamedCode) :=
  m.foldl (fun cm e => mapSet cm e.2.countryCode ⟨e.2.countryName, e.2.countryCode⟩) []

/-- The `seriesMap` of `createOptimizedMetadataFiles`, keyed by series
code. -/
def seriesMapOf (m : List (List Char × ProcessedRow)) :
    List (List Char × NamedCode) :=
  m.foldl (fun sm e => mapSet sm e.2.seriesCode ⟨e.2.seriesName, e.2.seriesCode⟩) []

/-- The `fileIndex` list of `createOptimizedMetadataFiles`: one
`(countryCode, seriesCode)` pair per processed entry, in map order. -/
def fileIndexOf (m : List (List Char × ProcessedRow)) :
    List (List Char × List Char) :=
  m.map (fun e => (e.2.countryCode, e.2.seriesCode))

/-- Everything a pipeline run writes, keyed the way it lands on disk:
per-entity files as `(filename, records)`, the three sorted lookup
tables. -/
structure PipelineOutput where
  dataFiles : List (List Char × List (List Char × List Char))
  countriesRecords : List NamedCode
  seriesRecords : List NamedCode
  sortedIndex : List (List Char × List Char)
deriving DecidableEq

/-- The comparator `a.countryCode.localeCompare(b.countryCode) ||
a.seriesCode.localeCompare(b.seriesCode)` of the index sort. -/
def indexLe (a b : List Char × List Char) : Bool :=
  if a.1 = b.1 then strLe a.2 b.2 else strLe a.1 b.1

/-- `splitWorldBankData` (`scripts/split-worldbank-data.ts` lines
255–323) as a pure function of the parsed input table: year columns from
the header, `processedData` by streaming the rows, one per-entity file
per map entry, then the metadata tables of
`createOptimizedMetadataFiles` (countries and series sorted by code, the
index sorted by country then series code). -/
def runPipeline (headers : List (List Char)) (rows : List SourceRow) : PipelineOutput :=
  let yearCols := headers.filter yearColTest
  let m := pipelineMap yearCols rows
  { dataFiles := m.map (fun e =>
      (createFilename e.2.countryCode e.2.seriesCode, entityRecords yearCols e.2))
    countriesRecords := sortByLe (fun a b => strLe a.code b.code)
      ((countriesMapOf m).map (fun p => p.2))
    seriesRecords := sortByLe (fun a b => strLe a.code b.code)
      ((seriesMapOf m).map (fun p => p.2))
    sortedIndex := sortByLe indexLe (fileIndexOf m) }

/-- The in-memory state of the metadata query utility
(`WorldBankMetadata` of the metadata-util script): countries and series
keyed by code, the index as a plain list of
`(countryCode, seriesCode)` pairs. -/
structure WorldBankMetadata where
  countries : List (List Char × NamedCode)
  series : List (List Char × NamedCode)
  fileIndex : List (List Char × List Char)

/-- `WorldBankMetadata.getCountry`: plain `Map.get`, an explicit absent
result (`undefined`) for a missing key, never a throw. -/
def getCountry (md : WorldBankMetadata) (countryCode : List Char) : Option NamedCode :=
  mapGet md.countries countryCode

/-- `WorldBankMetadata.getSeries`: plain `Map.get`, an explicit absent
result for a missing key, never a throw. -/
def getSeries (md : WorldBankMetadata) (seriesCode : List Char) : Option NamedCode :=
  mapGet md.series seriesCode

/-- `Array.prototype.map` whose callback can throw: the first `throw`
aborts the whole call with that error. -/
def mapThrow {α β : Type} (f : α → Except (List Char) β) : List α → Except (List Char) (List β)
  | [] => Except.ok []
  | x :: xs =>
    match f x with
    | Except.error e => Except.error e
    | Except.ok b =>
      match mapThrow f xs with
      | Except.error e => Except.error e
      | Except.ok bs => Except.ok (b :: bs)

/-- `WorldBankMetadata.getSeriesForCountry` (metadata-util lines
139–151): filter the index by country code, resolving each entry's
series in the lookup table — `throw new Error('Series not found: …')`
when it is absent — and pair it with the precomputed filename. -/
def getSeriesForCountry (md : WorldBankMetadata) (countryCode : List Char) :
    Except (List Char) (List (NamedCode × List Char)) :=
  mapThrow (fun e =>
      match getSeries md e.2 with
      | none => Except.error ("Series not found: ".toList ++ e.2)
      | some s => Except.ok (s, createFilename countryCode e.2))
    (md.fileIndex.filter (fun e => decide (e.1 = countryCode)))

/-- `WorldBankMetadata.getCountriesForSeries` (metadata-util lines
156–168): filter the index by series code, resolving each entry's
country — `throw new Error('Country not found: …')` when absent. -/
def getCountriesForSeries (md : WorldBankMetadata) (seriesCode : List Char) :
    Except (List Char) (List (NamedCode × List Char)) :=
  mapThrow (fun e =>
      match getCountry md e.1 with
      | none => Except.error ("Country not found: ".toList ++ e.1)
      | some c => Except.ok (c, createFilename e.1 seriesCode))
    (md.fileIndex.filter (fun e => decide (e.2 = seriesCode)))

/-- The outcome of one `fetch`: a resolved response carrying its `ok`
flag and body text, or a rejected promise (network failure / thrown
error). -/
inductive FetchOutcome
  | resolved (ok : Bool) (body : List Char)
  | rejected
deriving DecidableEq

/-- The `Country` interface of `src/examples/github-data-fetch.ts`. -/
structure Country where
  code : List Char
  name : List Char
deriving DecidableEq

/-- The `CountrySeriesData` interface: one country together with its
parsed `(year, value)` points. -/
structure CountrySeriesData where
  country : Country
  data : List YearValuePoint
deriving DecidableEq

/-- The `countryMap` construction of `useMultiCountryData` (lines
309–319): one `Map.set(code, name)` per `_countries.csv` data line whose
code and name are truthy and whose code is not `'Last Updated:'`. -/
def parseCountriesMap (csvText : List Char) : List (List Char × List Char) :=
  ((splitOnChar '\n' (jsTrim csvText)).drop 1).foldl
    (fun m line =>
      let parts := (splitOnChar ',' line).map (fun v => stripQuotes (jsTrim v))
      let code := parts.headD []
      match parts[1]? with
      | some name =>
        if code ≠ [] ∧ name ≠ [] ∧ code ≠ "Last Updated:".toList then mapSet m code name else m
      | none => m)
    []

/-- `fetchCountryData` of `useMultiCountryData` (lines 322–343): the
country name falls back to the raw code when the map has no (truthy)
entry; a non-`ok` response or a thrown error yields an empty data list,
a successful response yields the parsed points. -/
def fetchCountryData (oracle : List Char → FetchOutcome)
    (countryMap : List (List Char × List Char)) (seriesCode countryCode : List Char) :
    CountrySeriesData :=
  let name := match mapGet countryMap countryCode with
    | some n => if n = [] then countryCode else n
    | none => countryCode
  let country : Country := ⟨countryCode, name⟩
  match oracle (getFilenameFromCodes countryCode seriesCode) with
  | FetchOutcome.resolved true body => ⟨country, parseDataCsv body⟩
  | FetchOutcome.resolved false _ => ⟨country, []⟩
  | FetchOutcome.rejected => ⟨country, []⟩

/-- The `queryFn` of `useMultiCountryData` (lines 300–353) as a function
of a fetch oracle keyed by filename: empty selection short-circuits to
`[]`; the `_countries.csv` fetch is awaited unguarded, so its rejection
rejects the whole query (`Except.error`), while its body is used whether
or not the response was `ok`; then one `fetchCountryData` per requested
country code, joined in request order by `Promise.all`. -/
def multiCountryQuery (oracle : List Char → FetchOutcome)
    (countryCodes : List (List Char)) (seriesCode : List Char) :
    Except Unit (List CountrySeriesData) :=
  if seriesCode = [] ∨ countryCodes = [] then Except.ok []
  else match oracle "_countries.csv".toList with
    | FetchOutcome.rejected => Except.error ()
    | FetchOutcome.resolved _ body =>
      Except.ok (countryCodes.map (fetchCountryData oracle (parseCountriesMap body) seriesCode))

/-- The selection state a fetch is keyed by: the `queryKey`
`['multi-country-data', countryCodes, seriesCode]` of
`useMultiCountryData`. -/
structure SelectionKey where
  countryCodes : List (List Char)
  seriesCode : List Char
deriving DecidableEq

/-- Modelled from the spec: the query-caching collaborator (the TanStack
query client used by `DataExplorer` / `useMultiCountryData`) is an
external dependency whose source is not part of this repository.  Per
the spec's caching contract, it holds one cache slot per query key, a
settling fetch result is stored under the key it was issued for, and the
UI reads only the slot of the current selection. -/
structure ExplorerModelState where
  selection : SelectionKey
  cache : List (SelectionKey × List CountrySeriesData)

/-- An observable event of the Explorer model: the user changing the
selection, or an in-flight fetch for some (possibly stale) key
settling. -/
inductive ExplorerEvent
  | select (k : SelectionKey)
  | settle (k : SelectionKey) (d : List CountrySeriesData)

/-- Modelled from the spec: one step of the keyed query cache — a
selection change retargets the UI, a settling result is stored under its
own key only. -/
def stepExplorer (s : ExplorerModelState) : ExplorerEvent → ExplorerModelState
  | ExplorerEvent.select k => { s with selection := k }
  | ExplorerEvent.settle k d => { s with cache := mapSet s.cache k d }

/-- Run a sequence of Explorer events. -/
def runExplorer (s : ExplorerModelState) (es : List ExplorerEvent) : ExplorerModelState :=
  es.foldl stepExplorer s

/-- What `DataExplorer` renders: the cached result of the query keyed by
the current selection (`useMultiCountryData(selectedCountries,
selectedSeries).data`). -/
def displayedData (s : ExplorerModelState) : Option (List CountrySeriesData) :=
  mapGet s.cache s.selection

/-- The year-column label `1960 [YR1960]`. -/
def yr1960 : List Char := "1960 [YR1960]".toList

/-- The year-column label `1961 [YR1961]`. -/
def yr1961 : List Char := "1961 [YR1961]".toList

/-- Header row of the spec's two-row Argentina fixture. -/
def c3Headers : List (List Char) :=
  ["Country Name".toList, "Country Code".toList, "Series Name".toList, "Series Code".toList,
   yr1960, yr1961]

/-- First fixture row: Argentina GDP per capita with only the 1960 cell
filled. -/
def c3Row1 : SourceRow :=
  { countryName := "Argentina".toList, countryCode := "ARG".toList,
    seriesName := "GDP per capita".toList, seriesCode := "NY.GDP.PCAP.KD".toList,
    cells := [(yr1960, "7397.1".toList), (yr1961, [])] }

/-- Second fixture row, same key: only the 1961 cell filled. -/
def c3Row2 : SourceRow :=
  { countryName := "Argentina".toList, countryCode := "ARG".toList,
    seriesName := "GDP per capita".toList, seriesCode := "NY.GDP.PCAP.KD".toList,
    cells := [(yr1960, []), (yr1961, "7670.6".toList)] }

/-- Header row with the year columns listed 1961 before 1960. -/
def c4Headers : List (List Char) :=
  ["Country Name".toList, "Country Code".toList, "Series Name".toList, "Series Code".toList,
   yr1961, yr1960]

/-- One source row carrying the `..` sentinel in its 1961 cell. -/
def c4Row : SourceRow :=
  { countryName := "Argentina".toList, countryCode := "ARG".toList,
    seriesName := "GDP per capita".toList, seriesCode := "NY.GDP.PCAP.KD".toList,
    cells := [(yr1961, "..".toList), (yr1960, "5".toList)] }

/-- A processed entry whose single year cell holds the `..` sentinel. -/
def c4WitnessData : ProcessedRow :=
  { countryName := [], countryCode := [], seriesName := [], seriesCode := [],
    yearlyData := [(yr1960, some "..".toList)] }

/-- A source row with country code `A` and series code `B-C`. -/
def c6RowX : SourceRow :=
  { countryName := "X".toList, countryCode := "A".toList,
    seriesName := "SX".toList, seriesCode := "B-C".toList, cells := [] }

/-- A source row with country code `A-B` and series code `C` — its map
key `A-B-C` collides with `c6RowX`'s. -/
def c6RowY : SourceRow :=
  { countryName := "Y".toList, countryCode := "A-B".toList,
    seriesName := "SY".toList, seriesCode := "C".toList, cells := [] }

/-- A `_countries.csv` body listing USA, CHN and DEU. -/
def c7CountriesBody : List Char :=
  "Country Code,Country Name\nUSA,United States\nCHN,China\nDEU,Germany".toList

/-- A fetch oracle for the three-country scenario: the lookup table and
the USA and DEU files resolve, the CHN file resolves with a non-`ok`
status owing to HTTP 404. -/
def c7Oracle (f : List Char) : FetchOutcome :=
  if f = "_countries.csv".toList then FetchOutcome.resolved true c7CountriesBody
  else if f = "usa-nygdpmktpcd.csv".toList then
    FetchOutcome.resolved true "Year,Value\n1960,543.3".toList
  else if f = "chn-nygdpmktpcd.csv".toList then
    FetchOutcome.resolved false "Not Found".toList
  else if f = "deu-nygdpmktpcd.csv".toList then
    FetchOutcome.resolved true "Year,Value\n1960,100".toList
  else FetchOutcome.rejected

/-- A fetch oracle where only the countries lookup table resolves. -/
def c10Oracle (f : List Char) : FetchOutcome :=
  if f = "_countries.csv".toList then FetchOutcome.resolved true c7CountriesBody
  else FetchOutcome.rejected

/-- New characters produced by run collapsing are `rep`; everything else
is an input character outside the collapsed class. -/
theorem mem_of_mem_collapseRunsAux (p : Char → Bool) (rep : Char) :
    ∀ (l : List Char) (b : Bool) (c : Char), c ∈ collapseRunsAux p rep l b →
      c = rep ∨ (c ∈ l ∧ p c = false) := by
  intro l
  induction l with
  | nil => intro b c h; simp [collapseRunsAux] at h
  | cons x xs ih =>
    intro b c h
    by_cases hp : p x
    · cases b with
      | true =>
        simp only [collapseRunsAux, hp, if_true] at h
        rcases ih true c h with h1 | ⟨h2, h3⟩
        · exact Or.inl h1
        · exact Or.inr ⟨List.mem_cons_of_mem _ h2, h3⟩
      | false =>
        simp only [collapseRunsAux, hp, if_true, if_false] at h
        rcases List.mem_cons.mp h with h1 | h1
        · exact Or.inl h1
        · rcases ih true c h1 with h2 | ⟨h3, h4⟩
          · exact Or.inl h2
          · exact Or.inr ⟨List.mem_cons_of_mem _ h3, h4⟩
    · simp only [collapseRunsAux, hp, if_false] at h
      rcases List.mem_cons.mp h with h1 | h1
      · subst h1; exact Or.inr ⟨List.mem_cons_self _ _, by simpa using hp⟩
      · rcases ih false c h1 with h2 | ⟨h3, h4⟩
        · exact Or.inl h2
        · exact Or.inr ⟨List.mem_cons_of_mem _ h3, h4⟩

/-- After a run has just been collapsed, the next emitted character is
outside the collapsed class. -/
theorem head_collapseRunsAux_true (p : Char → Bool) (rep : Char) :
    ∀ (l : List Char) (c : Char), (collapseRunsAux p rep l true).head? = some c →
      p c = false := by
  intro l
  induction l with
  | nil => intro c h; simp [collapseRunsAux] at h
  | cons x xs ih =>
    intro c h
    cases hpx : p x with
    | true =>
      simp only [collapseRunsAux, hpx, if_true] at h
      exact ih c h
    | false =>
      simp only [collapseRunsAux, hpx, Bool.false_eq_true, if_false, List.head?_cons,
        Option.some.injEq] at h
      subst h; exact hpx

/-- Run collapsing never leaves two adjacent characters of the collapsed
class. -/
theorem chain'_collapseRunsAux (p : Char → Bool) (rep : Char) :
    ∀ (l : List Char) (b : Bool),
      List.Chain' (fun a c => ¬(p a = true ∧ p c = true)) (collapseRunsAux p rep l b) := by
  intro l
  induction l with
  | nil => intro b; simp [collapseRunsAux]
  | cons x xs ih =>
    intro b
    by_cases hp : p x
    · cases b with
      | true => simpa only [collapseRunsAux, hp, if_true] using ih true
      | false =>
        simp only [collapseRunsAux, hp, if_true, if_false]
        refine List.chain'_cons'.mpr ⟨?_, ih true⟩
        intro y hy hcon
        have := head_collapseRunsAux_true p rep xs y hy
        rw [this] at hcon
        exact Bool.false_ne_true hcon.2
    · simp only [collapseRunsAux, hp, if_false]
      refine List.chain'_cons'.mpr ⟨?_, ih false⟩
      intro y hy hcon
      rw [hcon.1] at hp
      exact hp rfl

/-- Run collapsing is the identity on lists without characters of the
collapsed class. -/
theorem collapseRunsAux_id (p : Char → Bool) (rep : Char) :
    ∀ (l : List Char) (b : Bool), (∀ c ∈ l, p c = false) →
      collapseRunsAux p rep l b = l := by
  intro l
  induction l with
  | nil => intro b _; rfl
  | cons x xs ih =>
    intro b h
    have hx : p x = false := h x (List.mem_cons_self _ _)
    simp only [collapseRunsAux, hx, if_false, Bool.false_eq_true]
    rw [ih false (fun c hc => h c (List.mem_cons_of_mem _ hc))]

/-- A kept character is lowercase alphanumeric, whitespace, or a
hyphen. -/
theorem keepChar_cases {c : Char} (h : keepChar c = true) :
    isLowerAlnum c = true ∨ isJsWhitespace c = true ∨ c = '-' := by
  simp only [keepChar, Bool.or_eq_true, decide_eq_true_eq] at h
  tauto

/-- Lowercase alphanumerics and hyphens are kept by the first
sanitizer stage. -/
theorem keepChar_of_la_or_hyphen {c : Char} (h : isLowerAlnum c = true ∨ c = '-') :
    keepChar c = true := by
  simp only [keepChar, Bool.or_eq_true, decide_eq_true_eq]
  tauto

/-- Lowercase alphanumerics are not JS whitespace. -/
theorem not_ws_of_la_or_hyphen {c : Char} (h : isLowerAlnum c = true ∨ c = '-') :
    isJsWhitespace c = false := by
  rcases h with h | h
  · simp only [isLowerAlnum, decide_eq_true_eq] at h
    simp only [isJsWhitespace, decide_eq_false_iff_not]
    omega
  · rw [h]; decide

/-- Lowercase alphanumerics are not the hyphen. -/
theorem not_hyphen_of_la {c : Char} (h : isLowerAlnum c = true) :
    isHyphenChar c = false := by
  simp only [isLowerAlnum, decide_eq_true_eq] at h
  simp only [isHyphenChar, decide_eq_false_iff_not]
  intro heq
  rw [heq] at h
  revert h; decide

/-- `toLowerCase` fixes lowercase alphanumerics and hyphens. -/
theorem toLower_fixed {c : Char} (h : isLowerAlnum c = true ∨ c = '-') :
    Char.toLower c = c := by
  rcases h with h | h
  · simp only [isLowerAlnum, decide_eq_true_eq] at h
    unfold Char.toLower
    rw [if_neg]
    omega
  · rw [h]; decide

/-- Mapping a function that fixes every member is the identity. -/
theorem map_id_of_fixed {f : Char → Char} :
    ∀ (l : List Char), (∀ c ∈ l, f c = c) → l.map f = l := by
  intro l
  induction l with
  | nil => intro _; rfl
  | cons x xs ih =>
    intro h
    simp only [List.map_cons, h x (List.mem_cons_self _ _),
      ih (fun c hc => h c (List.mem_cons_of_mem _ hc))]

/-- The no-two-adjacent-hyphens shape of the input to
`trimEdgeHyphens`. -/
def NoHyphRun (l : List Char) : Prop :=
  List.Chain' (fun a c => ¬(isHyphenChar a = true ∧ isHyphenChar c = true)) l

/-- The output of the hyphen-collapsing stage has no two adjacent
hyphens. -/
theorem noHyphRun_collapse (l : List Char) (b : Bool) :
    NoHyphRun (collapseRunsAux isHyphenChar '-' l b) :=
  chain'_collapseRunsAux isHyphenChar '-' l b

/-- Dropping the last element keeps the no-hyphen-run shape. -/
theorem NoHyphRun.dropLast {l : List Char} (h : NoHyphRun l) : NoHyphRun l.dropLast := by
  rw [List.dropLast_eq_take]
  exact h.take _

/-- On a list with no hyphen runs ending in a hyphen, the element before
that hyphen is not a hyphen. -/
theorem getLast_dropLast_ne {l : List Char} (h : NoHyphRun l)
    (hlast : l.getLast? = some '-') : l.dropLast.getLast? ≠ some '-' := by
  induction l with
  | nil => simp at hlast
  | cons a t ih =>
    match t, h, hlast, ih with
    | [], _, hlast, _ =>
      simp
    | [b], h, hlast, _ =>
      have hb : b = '-' := by simpa using hlast
      have hrel := List.chain'_cons'.mp h
      have hab := hrel.1 b (by simp)
      have ha : a ≠ '-' := by
        intro ha
        exact hab ⟨by simp [isHyphenChar, ha], by simp [isHyphenChar, hb]⟩
      simpa using ha
    | b :: c :: t', h, hlast, ih =>
      have h2 : NoHyphRun (b :: c :: t') := (List.chain'_cons'.mp h).2
      have hlast2 : (b :: c :: t').getLast? = some '-' := by
        simpa [List.getLast?_cons_cons] using hlast
      have ihr := ih h2 hlast2
      rw [List.dropLast_cons₂]
      intro hcon
      apply ihr
      have hne : (b :: c :: t').dropLast ≠ [] := by
        rw [List.dropLast_cons₂]
        simp
      rcases List.exists_cons_of_ne_nil hne with ⟨y, ys, hys⟩
      rw [hys] at hcon ⊢
      simpa [List.getLast?_cons_cons] using hcon

/-- The head survives `dropLast` unless the list collapses to `[]`. -/
theorem head_dropLast (l : List Char) :
    l.dropLast.head? = l.head? ∨ l.dropLast = [] := by
  match l with
  | [] => exact Or.inr rfl
  | [a] => exact Or.inr rfl
  | a :: b :: t => rw [List.dropLast_cons₂]; exact Or.inl rfl

/-- Everything `trimEdgeHyphens` guarantees about its output when the
input has no hyphen runs: no leading or trailing hyphen, the shape is
kept, and the output characters come from the input. -/
theorem trimEdgeHyphens_spec {l : List Char} (h : NoHyphRun l) :
    (trimEdgeHyphens l).head? ≠ some '-' ∧ (trimEdgeHyphens l).getLast? ≠ some '-' ∧
      NoHyphRun (trimEdgeHyphens l) ∧ trimEdgeHyphens l ⊆ l := by
  unfold trimEdgeHyphens
  by_cases hh : l.head? = some '-'
  · rw [if_pos hh]
    have htail : NoHyphRun l.tail := h.tail
    have hhead : l.tail.head? ≠ some '-' := by
      match l, h, hh with
      | a :: t, h, hh =>
        intro hcon
        have ha : a = '-' := by simpa using hh
        have hrel := (List.chain'_cons'.mp h).1 '-' (by simpa using hcon)
        exact hrel ⟨by simp [isHyphenChar, ha], by simp [isHyphenChar]⟩
    by_cases hl : l.tail.getLast? = some '-'
    · rw [if_pos hl]
      refine ⟨?_, getLast_dropLast_ne htail hl, htail.dropLast,
        fun x hx => (List.tail_sublist l).subset (l.tail.dropLast_sublist.subset hx)⟩
      rcases head_dropLast l.tail with heq | heq
      · rw [heq]; exact hhead
      · rw [heq]; simp
    · rw [if_neg hl]
      exact ⟨hhead, hl, htail, (List.tail_sublist l).subset⟩
  · rw [if_neg hh]
    by_cases hl : l.getLast? = some '-'
    · rw [if_pos hl]
      refine ⟨?_, getLast_dropLast_ne h hl, h.dropLast, l.dropLast_sublist.subset⟩
      rcases head_dropLast l with heq | heq
      · rw [heq]; exact hh
      · rw [heq]; simp
    · rw [if_neg hl]
      exact ⟨hh, hl, h, fun x hx => hx⟩

/-- Every character of a sanitized string is lowercase alphanumeric or a
hyphen. -/
theorem sanitize_charset (s : List Char) :
    ∀ c ∈ sanitizeFilename s, isLowerAlnum c = true ∨ c = '-' := by
  intro c hc
  unfold sanitizeFilename collapseRuns at hc
  have h3 := (trimEdgeHyphens_spec (noHyphRun_collapse
    (collapseRunsAux isJsWhitespace '-' ((jsToLower s).filter keepChar) false) false)).2.2.2 hc
  rcases mem_of_mem_collapseRunsAux _ _ _ _ _ h3 with h4 | ⟨h4, _⟩
  · exact Or.inr h4
  · rcases mem_of_mem_collapseRunsAux _ _ _ _ _ h4 with h6 | ⟨h6, h7⟩
    · exact Or.inr h6
    · rcases keepChar_cases (List.mem_filter.mp h6).2 with h9 | h9 | h9
      · exact Or.inl h9
      · exact (Bool.false_ne_true (h9.symm.trans h7).symm).elim
      · exact Or.inr h9

/-- A sanitized string has no leading hyphen, no trailing hyphen, and no
hyphen runs. -/
theorem sanitize_no_edge_hyphen (s : List Char) :
    (sanitizeFilename s).head? ≠ some '-' ∧ (sanitizeFilename s).getLast? ≠ some '-' ∧
      NoHyphRun (sanitizeFilename s) := by
  have h := trimEdgeHyphens_spec (noHyphRun_collapse
    (collapseRunsAux isJsWhitespace '-' ((jsToLower s).filter keepChar) false) false)
  exact ⟨h.1, h.2.1, h.2.2.1⟩

/-- Hyphen collapsing is the identity on lists with no hyphen runs, as
long as a run is not already open at a leading hyphen. -/
theorem collapseH_id :
    ∀ (l : List Char) (b : Bool), NoHyphRun l →
      (b = true → ∀ c ∈ l.head?, isHyphenChar c = false) →
      collapseRunsAux isHyphenChar '-' l b = l := by
  intro l
  induction l with
  | nil => intro b _ _; rfl
  | cons x xs ih =>
    intro b hch hflag
    cases hx : isHyphenChar x with
    | false =>
      simp only [collapseRunsAux, hx, Bool.false_eq_true, if_false]
      rw [ih false (List.Chain'.tail hch) (fun h => absurd h Bool.false_ne_true)]
    | true =>
      cases b with
      | true =>
        have := hflag rfl x (by simp)
        rw [hx] at this
        exact (Bool.false_ne_true this.symm).elim
      | false =>
        have hxh : x = '-' := by simpa [isHyphenChar] using hx
        have hflag2 : ∀ c ∈ xs.head?, isHyphenChar c = false := by
          intro c hc
          have hrel := (List.chain'_cons'.mp hch).1 c hc
          cases hc2 : isHyphenChar c with
          | false => rfl
          | true => exact absurd ⟨hx, hc2⟩ hrel
        simp only [collapseRunsAux, hx, if_true, Bool.false_eq_true, if_false]
        rw [ih true (List.Chain'.tail hch) (fun _ => hflag2), hxh]

/-- Edge-hyphen trimming is the identity when neither edge is a
hyphen. -/
theorem trimEdgeHyphens_id {l : List Char} (h1 : l.head? ≠ some '-')
    (h2 : l.getLast? ≠ some '-') : trimEdgeHyphens l = l := by
  unfold trimEdgeHyphens
  rw [if_neg h1, if_neg h2]

/-- The sanitizer fixes any string that already has its output shape. -/
theorem sanitize_fixed {l : List Char}
    (hset : ∀ c ∈ l, isLowerAlnum c = true ∨ c = '-')
    (hch : NoHyphRun l) (hh : l.head? ≠ some '-') (hl : l.getLast? ≠ some '-') :
    sanitizeFilename l = l := by
  unfold sanitizeFilename
  rw [show jsToLower l = l from map_id_of_fixed l (fun c hc => toLower_fixed (hset c hc))]
  rw [List.filter_eq_self.mpr (fun c hc => keepChar_of_la_or_hyphen (hset c hc))]
  rw [show collapseRuns isJsWhitespace '-' l = l from
    collapseRunsAux_id _ _ l false (fun c hc => not_ws_of_la_or_hyphen (hset c hc))]
  rw [show collapseRuns isHyphenChar '-' l = l from
    collapseH_id l false hch (fun h => absurd h Bool.false_ne_true)]
  exact trimEdgeHyphens_id hh hl

/-- C5: for every input string `s`, `sanitizeFilename s` contains only
characters in `[a-z0-9-]`, never starts or ends with a hyphen, and is
idempotent. -/
theorem c5_sanitize_props (s : List Char) :
    (∀ c ∈ sanitizeFilename s, isLowerAlnum c = true ∨ c = '-') ∧
    (sanitizeFilename s).head? ≠ some '-' ∧
    (sanitizeFilename s).getLast? ≠ some '-' ∧
    sanitizeFilename (sanitizeFilename s) = sanitizeFilename s := by
  obtain ⟨hh, hl, hch⟩ := sanitize_no_edge_hyphen s
  exact ⟨sanitize_charset s, hh, hl, sanitize_fixed (sanitize_charset s) hch hh hl⟩

/-- On strings whose lowercasing is purely `[a-z0-9]`, the sanitizer is
just lowercasing. -/
theorem sanitize_of_la {l : List Char} (h : ∀ c ∈ jsToLower l, isLowerAlnum c = true) :
    sanitizeFilename l = jsToLower l := by
  unfold sanitizeFilename
  rw [List.filter_eq_self.mpr (fun c hc => keepChar_of_la_or_hyphen (Or.inl (h c hc)))]
  rw [show collapseRuns isJsWhitespace '-' (jsToLower l) = jsToLower l from
    collapseRunsAux_id _ _ _ false (fun c hc => not_ws_of_la_or_hyphen (Or.inl (h c hc)))]
  rw [show collapseRuns isHyphenChar '-' (jsToLower l) = jsToLower l from
    collapseRunsAux_id _ _ _ false (fun c hc => not_hyphen_of_la (h c hc))]
  apply trimEdgeHyphens_id
  · intro hcon
    exact absurd (h '-' (List.mem_of_mem_head? (Option.mem_def.mpr hcon))) (by decide)
  · intro hcon
    exact absurd (h '-' (List.mem_of_mem_getLast? (Option.mem_def.mpr hcon))) (by decide)

/-- On strings whose lowercasing contains no whitespace and no hyphen,
the sanitizer is lowercasing followed by keeping only `[a-z0-9]`. -/
theorem sanitize_of_no_ws_hyphen {l : List Char}
    (h : ∀ c ∈ jsToLower l, isJsWhitespace c = false ∧ c ≠ '-') :
    sanitizeFilename l = (jsToLower l).filter isLowerAlnum := by
  unfold sanitizeFilename
  rw [List.filter_congr (fun c hc => show keepChar c = isLowerAlnum c by
    simp [keepChar, (h c hc).1, decide_eq_false_iff_not.mpr (h c hc).2])]
  have hmem : ∀ c ∈ (jsToLower l).filter isLowerAlnum, isLowerAlnum c = true :=
    fun c hc => (List.mem_filter.mp hc).2
  rw [show collapseRuns isJsWhitespace '-' ((jsToLower l).filter isLowerAlnum) =
      (jsToLower l).filter isLowerAlnum from
    collapseRunsAux_id _ _ _ false (fun c hc => not_ws_of_la_or_hyphen (Or.inl (hmem c hc)))]
  rw [show collapseRuns isHyphenChar '-' ((jsToLower l).filter isLowerAlnum) =
      (jsToLower l).filter isLowerAlnum from
    collapseRunsAux_id _ _ _ false (fun c hc => not_hyphen_of_la (hmem c hc))]
  apply trimEdgeHyphens_id
  · intro hcon
    exact absurd (hmem '-' (List.mem_of_mem_head? (Option.mem_def.mpr hcon))) (by decide)
  · intro hcon
    exact absurd (hmem '-' (List.mem_of_mem_getLast? (Option.mem_def.mpr hcon))) (by decide)

/-- C2 (counterexample): the Explorer's `getFilenameFromCodes` and the
pipeline's `createFilename` disagree on the pair `("A G", "B")` — the
Explorer keeps the space of the lowercased country code verbatim while
the sanitizer collapses it to a hyphen. -/
theorem c2_counterexample :
    getFilenameFromCodes "A G".toList "B".toList ≠
      createFilename "A G".toList "B".toList ∧
    getFilenameFromCodes "A G".toList "B".toList = "a g-b.csv".toList ∧
    createFilename "A G".toList "B".toList = "a-g-b.csv".toList := by
  decide

/-- C2 (amended): the Explorer's filename equals the pipeline's
`sanitize(countryCode) + "-" + sanitize(seriesCode) + ".csv"` whenever
the lowercased country code consists only of characters in `[a-z0-9]`
and the lowercased series code contains no whitespace and no hyphen
(which covers every real World Bank code pair). -/
theorem c2_filename_agreement (countryCode seriesCode : List Char)
    (hcc : ∀ c ∈ jsToLower countryCode, isLowerAlnum c = true)
    (hsc : ∀ c ∈ jsToLower seriesCode, isJsWhitespace c = false ∧ c ≠ '-') :
    getFilenameFromCodes countryCode seriesCode = createFilename countryCode seriesCode := by
  unfold getFilenameFromCodes createFilename
  rw [sanitize_of_la hcc, sanitize_of_no_ws_hyphen hsc]

/-- C2 (witness): the agreement theorem applied at the concrete pair
`("ARG", "NY.GDP.PCAP.KD")`. -/
theorem c2_filename_agreement_witness :
    getFilenameFromCodes "ARG".toList "NY.GDP.PCAP.KD".toList =
      createFilename "ARG".toList "NY.GDP.PCAP.KD".toList :=
  c2_filename_agreement _ _ (by decide) (by decide)

/-- C1 (counterexample): for the per-entity CSV text
`"Year,Value\n1960,abc"` the value `abc` fails numeric parsing after the
sentinel check, yet the emitted sequence keeps the point — with a `NaN`
value — because the Explorer's filter tests `item.year`, not the value;
so a non-finite numeric result does appear in the returned data. -/
theorem c1_counterexample :
    parseDataCsv "Year,Value\n1960,abc".toList = [⟨some 1960, ParsedValue.nan⟩] ∧
    ParsedValue.nan ∈ (parseDataCsv "Year,Value\n1960,abc".toList).map
      (fun p => p.value) := by
  decide

/-- C1 (amended): in the Explorer's data-fetch layer, a data line's
value maps to `null` for the empty string or the `..` sentinel, to the
parsed number when `parseFloat` succeeds, and to `NaN` when it fails
after the sentinel check; a line is dropped from the emitted sequence
exactly when its *year* fails numeric parsing, so `NaN`-valued points
with a parseable year remain in the returned data. -/
theorem c1_value_parsing :
    (∀ v, (v = [] ∨ v = "..".toList) → parseCellValue v = ParsedValue.null) ∧
    (∀ v q, ¬(v = [] ∨ v = "..".toList) → jsParseFloat v = some (JsNum.num q) →
      parseCellValue v = ParsedValue.num q) ∧
    (∀ v, ¬(v = [] ∨ v = "..".toList) → jsParseFloat v = none →
      parseCellValue v = ParsedValue.nan) ∧
    (∀ csvText p, p ∈ parseDataCsv csvText ↔
      (p ∈ ((splitOnChar '\n' (jsTrim csvText)).drop 1).map parseYearValueLine ∧
        p.year ≠ none)) ∧
    parseDataCsv "Year,Value\n1960,abc".toList = [⟨some 1960, ParsedValue.nan⟩] := by
  refine ⟨?_, ?_, ?_, ?_, by decide⟩
  · intro v h
    unfold parseCellValue
    rw [if_pos h]
  · intro v q h hf
    unfold parseCellValue
    rw [if_neg h, hf]
  · intro v h hf
    unfold parseCellValue
    rw [if_neg h, hf]
  · intro csvText p
    unfold parseDataCsv
    rw [List.mem_filter, Option.isSome_iff_ne_none]

/-- C1 (witness): the amended parsing theorem applied at the concrete
cells of the spec's examples. -/
theorem c1_value_parsing_witness :
    parseCellValue [] = ParsedValue.null ∧
    parseCellValue "..".toList = ParsedValue.null ∧
    parseCellValue "7397.10965".toList = ParsedValue.num (mkRat 739710965 100000) ∧
    parseCellValue "abc".toList = ParsedValue.nan :=
  ⟨c1_value_parsing.1 [] (Or.inl rfl),
   c1_value_parsing.1 "..".toList (Or.inr rfl),
   c1_value_parsing.2.1 "7397.10965".toList _ (by decide) (by decide),
   c1_value_parsing.2.2.1 "abc".toList (by decide) (by decide)⟩

/-- C3 (counterexample): on the spec's two-row Argentina fixture the
pipeline does not merge — the second row's `processedData.set`
overwrites the first, so the written file has an empty 1960 value and
the row `1960,7397.1` is absent. -/
theorem c3_counterexample :
    ("1960".toList, "7397.1".toList) ∉
      ((runPipeline c3Headers [c3Row1, c3Row2]).dataFiles.headD ([], [])).2 ∧
    (runPipeline c3Headers [c3Row1, c3Row2]).dataFiles.map (fun f => f.1) =
      ["arg-nygdppcapkd.csv".toList] := by
  decide

/-- C3 (amended): on the two-row fixture the pipeline writes exactly one
file `arg-nygdppcapkd.csv` whose rows come from the last source row only
(last write wins): `1960,` (empty value) followed by `1961,7670.6`; the
metadata tables carry the single Argentina / GDP-per-capita pair. -/
theorem c3_pipeline_run :
    runPipeline c3Headers [c3Row1, c3Row2] =
      { dataFiles := [("arg-nygdppcapkd.csv".toList,
          [("1960".toList, []), ("1961".toList, "7670.6".toList)])],
        countriesRecords := [⟨"Argentina".toList, "ARG".toList⟩],
        seriesRecords := [⟨"GDP per capita".toList, "NY.GDP.PCAP.KD".toList⟩],
        sortedIndex := [("ARG".toList, "NY.GDP.PCAP.KD".toList)] } := by
  decide

/-- A header matching the year-column pattern starts with four digits
(after the match position). -/
theorem yearColMatchAt_shape {l : List Char} (h : yearColMatchAt l = true) :
    ∃ d1 d2 d3 d4 t, l = d1 :: d2 :: d3 :: d4 :: t ∧
      (isDigitChar d1 && isDigitChar d2 && isDigitChar d3 && isDigitChar d4) = true := by
  unfold yearColMatchAt at h
  split at h
  · rename_i d1 d2 d3 d4 e1 e2 e3 e4 t
    refine ⟨d1, d2, d3, d4, _, rfl, ?_⟩
    simp only [Bool.and_eq_true] at h ⊢
    exact h.1.1.1.1
  · exact absurd h Bool.false_ne_true

/-- `/\d{4}/` matches at the start of a list beginning with four
digits. -/
theorem firstYearMatch_cons4 {d1 d2 d3 d4 : Char} {t : List Char}
    (h : (isDigitChar d1 && isDigitChar d2 && isDigitChar d3 && isDigitChar d4) = true) :
    firstYearMatch (d1 :: d2 :: d3 :: d4 :: t) = some [d1, d2, d3, d4] := by
  simp only [firstYearMatch]
  rw [if_pos h]

/-- Every header selected by `/\d{4} \[YR\d{4}\]/.test` yields a
`/\d{4}/` match, so the per-entity writer drops no year column. -/
theorem firstYearMatch_isSome_of_test {yc : List Char} (h : yearColTest yc = true) :
    (firstYearMatch yc).isSome = true := by
  unfold yearColTest at h
  induction yc with
  | nil => simp [yearColMatchAt] at h
  | cons a rest ih =>
    rw [List.tails_cons, List.any_cons, Bool.or_eq_true] at h
    rcases h with h | h
    · obtain ⟨d1, d2, d3, d4, t, heq, hd⟩ := yearColMatchAt_shape h
      rw [heq, firstYearMatch_cons4 hd]
      rfl
    · have hs := ih h
      match rest, hs with
      | b :: c :: d :: t, hs =>
        simp only [firstYearMatch]
        split
        · rfl
        · exact hs
      | [], hs => simp [firstYearMatch] at hs
      | [b], hs => simp [firstYearMatch] at hs
      | [b, c], hs => simp [firstYearMatch] at hs

/-- When every column passes the year test, the writer emits one record
per column, in column order. -/
theorem entityRecords_eq_map :
    ∀ (yearCols : List (List Char)) (data : ProcessedRow),
      (∀ yc ∈ yearCols, yearColTest yc = true) →
      entityRecords yearCols data =
        yearCols.map (fun yc => ((firstYearMatch yc).getD [], jsOrEmpty (yearlyGet data yc))) := by
  intro yearCols data
  induction yearCols with
  | nil => intro _; rfl
  | cons yc ycs ih =>
    intro h
    have hs := firstYearMatch_isSome_of_test (h yc (List.mem_cons_self _ _))
    obtain ⟨y0, hy0⟩ := Option.isSome_iff_exists.mp hs
    simp only [entityRecords, List.filterMap_cons, List.map_cons, hy0, Option.map_some,
      Option.getD_some]
    exact congrArg _ (ih (fun x hx => h x (List.mem_cons_of_mem _ hx)))

/-- C4 (counterexample): with the year columns listed 1961 before 1960
and a `..` cell, the written file keeps header order (1961 first, not
year-ascending) and renders the `..` sentinel verbatim instead of an
empty value. -/
theorem c4_counterexample :
    (runPipeline c4Headers [c4Row]).dataFiles =
      [("arg-nygdppcapkd.csv".toList,
        [("1961".toList, "..".toList), ("1960".toList, "5".toList)])] ∧
    "..".toList ∈ ((runPipeline c4Headers [c4Row]).dataFiles.headD ([], [])).2.map
      (fun r => r.2) ∧
    ((runPipeline c4Headers [c4Row]).dataFiles.headD ([], [])).2.map (fun r => r.1) =
      ["1961".toList, "1960".toList] := by
  decide

/-- C4 (amended): every per-entity file contains exactly one
`(year, value)` row per year column, in the order the year columns
appear in the source header (ascending only when the header lists them
ascending), with `Value` rendered empty exactly when the source cell is
absent (`undefined`) or the empty string — the `..` sentinel is copied
through verbatim, not rendered empty. -/
theorem c4_writer_shape (yearCols : List (List Char)) (data : ProcessedRow)
    (h : ∀ yc ∈ yearCols, yearColTest yc = true) :
    entityRecords yearCols data =
      yearCols.map (fun yc => ((firstYearMatch yc).getD [], jsOrEmpty (yearlyGet data yc))) ∧
    (entityRecords yearCols data).length = yearCols.length ∧
    (∀ v, jsOrEmpty v = [] ↔ (v = none ∨ v = some [])) ∧
    jsOrEmpty (some "..".toList) = "..".toList := by
  refine ⟨entityRecords_eq_map yearCols data h, ?_, ?_, rfl⟩
  · rw [entityRecords_eq_map yearCols data h, List.length_map]
  · intro v
    cases v with
    | none => simp [jsOrEmpty]
    | some a => simp [jsOrEmpty]

/-- C4 (witness): the writer-shape theorem applied to one `..`-valued
year column. -/
theorem c4_writer_shape_witness :
    entityRecords [yr1960] c4WitnessData = [("1960".toList, "..".toList)] := by
  have h := c4_writer_shape [yr1960] c4WitnessData (by decide)
  exact h.1.trans (by decide)

/-- C7: when the countries-table fetch resolves, a multi-country fetch
over a non-empty selection returns (without failing) one entry per
requested country code, in request order; an entry whose per-entity
fetch resolved non-`ok` or rejected carries an empty data sequence, and
a successful entry carries its parsed points. -/
theorem c7_multi_fetch_join (oracle : List Char → FetchOutcome)
    (countryCodes : List (List Char)) (seriesCode : List Char) (ok : Bool) (ctext : List Char)
    (hcc : countryCodes ≠ []) (hsc : seriesCode ≠ [])
    (hmeta : oracle "_countries.csv".toList = FetchOutcome.resolved ok ctext) :
    multiCountryQuery oracle countryCodes seriesCode =
      Except.ok (countryCodes.map
        (fetchCountryData oracle (parseCountriesMap ctext) seriesCode)) ∧
    (countryCodes.map (fetchCountryData oracle (parseCountriesMap ctext) seriesCode)).length
      = countryCodes.length ∧
    (∀ (i : Nat) (cc : List Char), countryCodes[i]? = some cc →
      (countryCodes.map (fetchCountryData oracle (parseCountriesMap ctext) seriesCode))[i]? =
        some (fetchCountryData oracle (parseCountriesMap ctext) seriesCode cc) ∧
      (fetchCountryData oracle (parseCountriesMap ctext) seriesCode cc).country.code = cc ∧
      (∀ b, oracle (getFilenameFromCodes cc seriesCode) = FetchOutcome.resolved true b →
        (fetchCountryData oracle (parseCountriesMap ctext) seriesCode cc).data =
          parseDataCsv b) ∧
      (∀ b, oracle (getFilenameFromCodes cc seriesCode) = FetchOutcome.resolved false b →
        (fetchCountryData oracle (parseCountriesMap ctext) seriesCode cc).data = []) ∧
      (oracle (getFilenameFromCodes cc seriesCode) = FetchOutcome.rejected →
        (fetchCountryData oracle (parseCountriesMap ctext) seriesCode cc).data = [])) := by
  refine ⟨?_, List.length_map _ _, ?_⟩
  · unfold multiCountryQuery
    rw [if_neg (fun hor => hor.elim hsc hcc), hmeta]
  · intro i cc hi
    refine ⟨?_, ?_, ?_, ?_, ?_⟩
    · rw [List.getElem?_map, hi]; rfl
    · unfold fetchCountryData
      cases oracle (getFilenameFromCodes cc seriesCode) with
      | resolved okk body => cases okk <;> rfl
      | rejected => rfl
    · intro b hb
      unfold fetchCountryData
      rw [hb]
    · intro b hb
      unfold fetchCountryData
      rw [hb]
    · intro hb
      unfold fetchCountryData
      rw [hb]

/-- C7 (witness): the join theorem applied to the USA / CHN / DEU
scenario with CHN's file answering HTTP 404. -/
theorem c7_multi_fetch_join_witness :
    multiCountryQuery c7Oracle ["USA".toList, "CHN".toList, "DEU".toList]
        "NY.GDP.MKTP.CD".toList =
      Except.ok (["USA".toList, "CHN".toList, "DEU".toList].map
        (fetchCountryData c7Oracle (parseCountriesMap c7CountriesBody)
          "NY.GDP.MKTP.CD".toList)) ∧
    (["USA".toList, "CHN".toList, "DEU".toList].map
      (fetchCountryData c7Oracle (parseCountriesMap c7CountriesBody)
        "NY.GDP.MKTP.CD".toList)).length = 3 := by
  have h := c7_multi_fetch_join c7Oracle ["USA".toList, "CHN".toList, "DEU".toList]
    "NY.GDP.MKTP.CD".toList true c7CountriesBody (by decide) (by decide) (by decide)
  exact ⟨h.1, h.2.1.trans (by decide)⟩

/-- C10: a requested country code absent from the parsed countries table
still yields an entry whose country name is the raw code itself, and the
query succeeds — the missing lookup metadata is silently substituted,
with no error raised. -/
theorem c10_missing_country_fallback (oracle : List Char → FetchOutcome)
    (countryCodes : List (List Char)) (seriesCode cc ctext : List Char) (ok : Bool)
    (hsc : seriesCode ≠ []) (hmem : cc ∈ countryCodes)
    (hmeta : oracle "_countries.csv".toList = FetchOutcome.resolved ok ctext)
    (habs : mapGet (parseCountriesMap ctext) cc = none) :
    multiCountryQuery oracle countryCodes seriesCode =
      Except.ok (countryCodes.map
        (fetchCountryData oracle (parseCountriesMap ctext) seriesCode)) ∧
    Country.mk cc cc ∈ (countryCodes.map
      (fetchCountryData oracle (parseCountriesMap ctext) seriesCode)).map
        (fun e => e.country) := by
  have hne : countryCodes ≠ [] := by
    intro h
    rw [h] at hmem
    exact absurd hmem (List.not_mem_nil _)
  constructor
  · unfold multiCountryQuery
    rw [if_neg (fun hor => hor.elim hsc hne), hmeta]
  · refine List.mem_map.mpr
      ⟨fetchCountryData oracle (parseCountriesMap ctext) seriesCode cc,
       List.mem_map.mpr ⟨cc, hmem, rfl⟩, ?_⟩
    unfold fetchCountryData
    rw [habs]
    cases oracle (getFilenameFromCodes cc seriesCode) with
    | resolved okk body => cases okk <;> rfl
    | rejected => rfl

/-- C10 (witness): the fallback theorem applied to the code `XYZ`, which
the fixture's countries table does not list. -/
theorem c10_missing_country_fallback_witness :
    multiCountryQuery c10Oracle ["XYZ".toList] "NY.GDP.MKTP.CD".toList =
      Except.ok (["XYZ".toList].map
        (fetchCountryData c10Oracle (parseCountriesMap c7CountriesBody)
          "NY.GDP.MKTP.CD".toList)) ∧
    Country.mk "XYZ".toList "XYZ".toList ∈ (["XYZ".toList].map
      (fetchCountryData c10Oracle (parseCountriesMap c7CountriesBody)
        "NY.GDP.MKTP.CD".toList)).map (fun e => e.country) :=
  c10_missing_country_fallback c10Oracle ["XYZ".toList] "NY.GDP.MKTP.CD".toList
    "XYZ".toList c7CountriesBody true (by decide) (by decide) (by decide) (by decide)

/-- `Map.get` after `Map.set` at the same key returns the new value. -/
theorem mapGet_mapSet_self {K V : Type} [DecidableEq K] (m : List (K × V)) (k : K) (v : V) :
    mapGet (mapSet m k v) k = some v := by
  unfold mapSet
  by_cases hany : m.any (fun p => decide (p.1 = k)) = true
  · rw [if_pos hany]
    induction m with
    | nil => simp at hany
    | cons a t ih =>
      rw [List.any_cons, Bool.or_eq_true] at hany
      by_cases ha : a.1 = k
      · simp [mapGet, List.find?_cons_of_pos, ha]
      · have ht : t.any (fun p => decide (p.1 = k)) = true := by
          rcases hany with h | h
          · exact absurd (of_decide_eq_true h) ha
          · exact h
        simp only [List.map_cons, if_neg ha]
        rw [mapGet, List.find?_cons_of_neg _ (by simpa using ha)]
        exact ih ht
  · rw [if_neg hany]
    induction m with
    | nil => simp [mapGet, List.find?_cons_of_pos]
    | cons a t ih =>
      rw [List.any_cons, Bool.or_eq_true] at hany
      push_neg at hany
      have ha : ¬(a.1 = k) := fun h => hany.1 (decide_eq_true h)
      rw [List.cons_append, mapGet, List.find?_cons_of_neg _ (by simpa using ha)]
      exact ih hany.2

/-- `Map.set` leaves every other key's lookup unchanged. -/
theorem mapGet_mapSet_ne {K V : Type} [DecidableEq K] (m : List (K × V)) (k k' : K) (v : V)
    (h : k' ≠ k) : mapGet (mapSet m k v) k' = mapGet m k' := by
  have hk : ¬(k = k') := fun hc => h hc.symm
  unfold mapSet
  by_cases hany : m.any (fun p => decide (p.1 = k)) = true
  · rw [if_pos hany]
    clear hany
    induction m with
    | nil => rfl
    | cons a t ih =>
      by_cases ha : a.1 = k
      · have h1 : decide ((((k, v)) : K × V).1 = k') = false := decide_eq_false hk
        have h2 : decide (a.1 = k') = false := decide_eq_false (by rw [ha]; exact hk)
        simp only [List.map_cons, if_pos ha, mapGet, List.find?_cons, h1, h2]
        exact ih
      · simp only [List.map_cons, if_neg ha, mapGet, List.find?_cons]
        cases hpa : decide (a.1 = k') with
        | true => rfl
        | false => exact ih
  · rw [if_neg hany]
    induction m with
    | nil =>
      have h1 : decide ((((k, v)) : K × V).1 = k') = false := decide_eq_false hk
      simp [mapGet, List.find?_cons, h1]
    | cons a t ih =>
      rw [List.any_cons, Bool.or_eq_true] at hany
      push_neg at hany
      rw [List.cons_append]
      simp only [mapGet, List.find?_cons]
      cases hpa : decide (a.1 = k') with
      | true => rfl
      | false => exact ih hany.2

/-- C9: a fetch result belonging to a superseded selection is never
applied — in both settle orders of the A-then-B scenario the UI shows
only B's data once everything settles, and in general a result settling
under a key other than the current selection leaves the displayed data
unchanged. -/
theorem c9_stale_selection_discard (s0 : ExplorerModelState) (A B : SelectionKey)
    (dA dB : List CountrySeriesData) (hAB : A ≠ B) :
    displayedData (runExplorer s0
      [ExplorerEvent.select A, ExplorerEvent.select B,
       ExplorerEvent.settle B dB, ExplorerEvent.settle A dA]) = some dB ∧
    displayedData (runExplorer s0
      [ExplorerEvent.select A, ExplorerEvent.select B,
       ExplorerEvent.settle A dA, ExplorerEvent.settle B dB]) = some dB ∧
    (∀ (s : ExplorerModelState) (k : SelectionKey) (d : List CountrySeriesData),
      k ≠ s.selection →
      displayedData (stepExplorer s (ExplorerEvent.settle k d)) = displayedData s) := by
  refine ⟨?_, ?_, ?_⟩
  · show mapGet (mapSet (mapSet s0.cache B dB) A dA) B = some dB
    rw [mapGet_mapSet_ne _ _ _ _ (Ne.symm hAB), mapGet_mapSet_self]
  · show mapGet (mapSet (mapSet s0.cache A dA) B dB) B = some dB
    rw [mapGet_mapSet_self]
  · intro s k d hk
    show mapGet (mapSet s.cache k d) s.selection = mapGet s.cache s.selection
    rw [mapGet_mapSet_ne _ _ _ _ (Ne.symm hk)]

/-- C9 (witness): the discard theorem at a concrete pair of series
selections, with the stale fetch settling last. -/
theorem c9_stale_selection_discard_witness :
    displayedData (runExplorer
      { selection := ⟨["USA".toList], "S1".toList⟩, cache := [] }
      [ExplorerEvent.select ⟨["USA".toList], "S1".toList⟩,
       ExplorerEvent.select ⟨["USA".toList], "S2".toList⟩,
       ExplorerEvent.settle ⟨["USA".toList], "S2".toList⟩
         [⟨⟨"USA".toList, "United States".toList⟩, []⟩],
       ExplorerEvent.settle ⟨["USA".toList], "S1".toList⟩ []]) =
      some [⟨⟨"USA".toList, "United States".toList⟩, []⟩] :=
  (c9_stale_selection_discard _ ⟨["USA".toList], "S1".toList⟩ ⟨["USA".toList], "S2".toList⟩
    [] [⟨⟨"USA".toList, "United States".toList⟩, []⟩] (by decide)).1

/-- A throwing `map` rejects exactly when some element makes the
callback throw. -/
theorem mapThrow_error_iff {α β : Type} (f : α → Except (List Char) β) (l : List α) :
    (∃ msg, mapThrow f l = Except.error msg) ↔ ∃ x ∈ l, ∃ msg, f x = Except.error msg := by
  induction l with
  | nil =>
    constructor
    · rintro ⟨msg, h⟩
      simp [mapThrow] at h
    · rintro ⟨x, hx, _⟩
      exact absurd hx (List.not_mem_nil _)
  | cons a t ih =>
    constructor
    · rintro ⟨msg, h⟩
      unfold mapThrow at h
      cases hfa : f a with
      | error e => exact ⟨a, List.mem_cons_self _ _, e, hfa⟩
      | ok b =>
        rw [hfa] at h
        cases hmt : mapThrow f t with
        | error e =>
          obtain ⟨x, hx, hmsg⟩ := ih.mp ⟨e, hmt⟩
          exact ⟨x, List.mem_cons_of_mem _ hx, hmsg⟩
        | ok bs =>
          rw [hmt] at h
          exact absurd h (by simp)
    · rintro ⟨x, hx, msg, hmsg⟩
      rcases List.mem_cons.mp hx with rfl | hx
      · refine ⟨msg, ?_⟩
        unfold mapThrow
        rw [hmsg]
      · obtain ⟨e, he⟩ := ih.mpr ⟨x, hx, msg, hmsg⟩
        unfold mapThrow
        cases hfa : f a with
        | error e2 => exact ⟨e2, rfl⟩
        | ok b =>
          rw [he]
          exact ⟨e, rfl⟩

/-- C8: the index resolvers throw precisely when some index entry for
the requested code references a series (resp. country) code absent from
its lookup table — never silently skipping it — while plain
`getCountry` / `getSeries` are total lookups returning an explicit
absent result exactly for missing keys. -/
theorem c8_lookup_error_discipline (md : WorldBankMetadata) (cc sc : List Char) :
    ((∃ msg, getSeriesForCountry md cc = Except.error msg) ↔
      ∃ e ∈ md.fileIndex, e.1 = cc ∧ getSeries md e.2 = none) ∧
    ((∃ msg, getCountriesForSeries md sc = Except.error msg) ↔
      ∃ e ∈ md.fileIndex, e.2 = sc ∧ getCountry md e.1 = none) ∧
    (getCountry md cc = none ↔ ∀ p ∈ md.countries, p.1 ≠ cc) ∧
    (getSeries md sc = none ↔ ∀ p ∈ md.series, p.1 ≠ sc) := by
  refine ⟨?_, ?_, ?_, ?_⟩
  · unfold getSeriesForCountry
    rw [mapThrow_error_iff]
    constructor
    · rintro ⟨e, he, msg, hmsg⟩
      have hf := List.mem_filter.mp he
      refine ⟨e, hf.1, of_decide_eq_true hf.2, ?_⟩
      cases hs : getSeries md e.2 with
      | none => rfl
      | some s =>
        rw [hs] at hmsg
        exact absurd hmsg (by simp)
    · rintro ⟨e, he, hcc, hnone⟩
      refine ⟨e, List.mem_filter.mpr ⟨he, decide_eq_true hcc⟩, ?_⟩
      rw [hnone]
      exact ⟨_, rfl⟩
  · unfold getCountriesForSeries
    rw [mapThrow_error_iff]
    constructor
    · rintro ⟨e, he, msg, hmsg⟩
      have hf := List.mem_filter.mp he
      refine ⟨e, hf.1, of_decide_eq_true hf.2, ?_⟩
      cases hs : getCountry md e.1 with
      | none => rfl
      | some c =>
        rw [hs] at hmsg
        exact absurd hmsg (by simp)
    · rintro ⟨e, he, hsc, hnone⟩
      refine ⟨e, List.mem_filter.mpr ⟨he, decide_eq_true hsc⟩, ?_⟩
      rw [hnone]
      exact ⟨_, rfl⟩
  · unfold getCountry mapGet
    rw [Option.map_eq_none']
    constructor
    · intro h p hp hpc
      exact (List.find?_eq_none.mp h p hp) (decide_eq_true hpc)
    · intro h
      exact List.find?_eq_none.mpr (fun p hp hdec => h p hp (of_decide_eq_true hdec))
  · unfold getSeries mapGet
    rw [Option.map_eq_none']
    constructor
    · intro h p hp hpc
      exact (List.find?_eq_none.mp h p hp) (decide_eq_true hpc)
    · intro h
      exact List.find?_eq_none.mpr (fun p hp hdec => h p hp (of_decide_eq_true hdec))

/-- An element of `mapSet m k v` is the new entry or an old one. -/
theorem mem_of_mem_mapSet {K V : Type} [DecidableEq K] {m : List (K × V)} {k : K} {v : V}
    {p : K × V} (h : p ∈ mapSet m k v) : p = (k, v) ∨ p ∈ m := by
  unfold mapSet at h
  by_cases hany : m.any (fun q => decide (q.1 = k)) = true
  · rw [if_pos hany] at h
    obtain ⟨q, hq, hqe⟩ := List.mem_map.mp h
    by_cases hqk : q.1 = k
    · rw [if_pos hqk] at hqe
      exact Or.inl hqe.symm
    · rw [if_neg hqk] at hqe
      exact Or.inr (hqe ▸ hq)
  · rw [if_neg hany] at h
    rcases List.mem_append.mp h with h1 | h1
    · exact Or.inr h1
    · exact Or.inl (List.mem_singleton.mp h1)

/-- `Map.set` makes its entry present. -/
theorem self_mem_mapSet {K V : Type} [DecidableEq K] (m : List (K × V)) (k : K) (v : V) :
    (k, v) ∈ mapSet m k v := by
  unfold mapSet
  by_cases hany : m.any (fun q => decide (q.1 = k)) = true
  · rw [if_pos hany]
    obtain ⟨q, hq, hdec⟩ := List.any_eq_true.mp hany
    refine List.mem_map.mpr ⟨q, hq, ?_⟩
    rw [if_pos (of_decide_eq_true hdec)]
  · rw [if_neg hany]
    exact List.mem_append.mpr (Or.inr (List.mem_singleton.mpr rfl))

/-- `Map.set` keeps every entry under a different key. -/
theorem mem_mapSet_of_ne {K V : Type} [DecidableEq K] {m : List (K × V)} {k0 : K} {v0 : V}
    (k : K) (v : V) (h : (k0, v0) ∈ m) (hne : k0 ≠ k) : (k0, v0) ∈ mapSet m k v := by
  unfold mapSet
  by_cases hany : m.any (fun q => decide (q.1 = k)) = true
  · rw [if_pos hany]
    refine List.mem_map.mpr ⟨(k0, v0), h, ?_⟩
    rw [if_neg hne]
  · rw [if_neg hany]
    exact List.mem_append.mpr (Or.inl h)

/-- `Map.set` keeps the key list duplicate-free. -/
theorem nodup_keys_mapSet {K V : Type} [DecidableEq K] {m : List (K × V)} (k : K) (v : V)
    (h : (m.map Prod.fst).Nodup) : ((mapSet m k v).map Prod.fst).Nodup := by
  unfold mapSet
  by_cases hany : m.any (fun q => decide (q.1 = k)) = true
  · rw [if_pos hany, List.map_map]
    have heq : m.map (Prod.fst ∘ fun p => if p.1 = k then (k, v) else p) = m.map Prod.fst := by
      apply List.map_congr_left
      intro a _
      by_cases ha : a.1 = k
      · simp [ha]
      · simp [ha]
    rw [heq]
    exact h
  · rw [if_neg hany, List.map_append, List.nodup_append]
    refine ⟨h, List.nodup_singleton _, ?_⟩
    intro a ha hb
    rw [List.map_singleton, List.mem_singleton] at hb
    obtain ⟨q, hq, hqa⟩ := List.mem_map.mp ha
    apply hany
    exact List.any_eq_true.mpr ⟨q, hq, decide_eq_true (by rw [hqa, hb])⟩

/-- Entry-wise properties survive `Map.set` when the new entry has
them. -/
theorem all_mapSet {K V : Type} [DecidableEq K] {m : List (K × V)} {k : K} {v : V}
    (Q : K × V → Prop) (hm : ∀ p ∈ m, Q p) (hv : Q (k, v)) :
    ∀ p ∈ mapSet m k v, Q p := by
  intro p hp
  rcases mem_of_mem_mapSet hp with h | h
  · exact h ▸ hv
  · exact hm p h

/-- Sorted insertion permutes to plain cons. -/
theorem insertSorted_perm {α : Type} (le : α → α → Bool) (x : α) :
    ∀ (l : List α), List.Perm (insertSorted le x l) (x :: l) := by
  intro l
  induction l with
  | nil => exact List.Perm.refl _
  | cons y ys ih =>
    unfold insertSorted
    by_cases hle : le x y = true
    · rw [if_pos hle]
    · rw [if_neg hle]
      exact (ih.cons y).trans (List.Perm.swap x y ys)

/-- The modelled `Array.prototype.sort` permutes its input. -/
theorem sortByLe_perm {α : Type} (le : α → α → Bool) :
    ∀ (l : List α), List.Perm (sortByLe le l) l := by
  intro l
  induction l with
  | nil => exact List.Perm.refl _
  | cons a t ih => exact (insertSorted_perm le a (sortByLe le t)).trans (ih.cons a)

/-- Every `processedData` entry is keyed by its own value's pair. -/
theorem pipelineMap_keyedRight (yearCols : List (List Char)) :
    ∀ (rows : List SourceRow) (m : List (List Char × ProcessedRow)),
      (∀ p ∈ m, p.1 = mkKey p.2.countryCode p.2.seriesCode) →
      ∀ p ∈ rows.foldl (fun m' row =>
          mapSet m' (mkKey row.countryCode row.seriesCode) (processRow yearCols row)) m,
        p.1 = mkKey p.2.countryCode p.2.seriesCode := by
  intro rows
  induction rows with
  | nil => intro m hm; exact hm
  | cons r rs ih =>
    intro m hm
    rw [List.foldl_cons]
    exact ih _ (all_mapSet _ hm rfl)

/-- The `processedData` keys stay duplicate-free. -/
theorem pipelineMap_nodup_keys (yearCols : List (List Char)) :
    ∀ (rows : List SourceRow) (m : List (List Char × ProcessedRow)),
      (m.map Prod.fst).Nodup →
      ((rows.foldl (fun m' row =>
          mapSet m' (mkKey row.countryCode row.seriesCode) (processRow yearCols row)) m).map
        Prod.fst).Nodup := by
  intro rows
  induction rows with
  | nil => intro m hm; exact hm
  | cons r rs ih =>
    intro m hm
    rw [List.foldl_cons]
    exact ih _ (nodup_keys_mapSet _ _ hm)

/-- A pair already present under its key survives the rest of the
stream, provided no later row collides on the joined key with a
different pair. -/
theorem pipelineMap_pair_preserved (yearCols : List (List Char)) :
    ∀ (rows : List SourceRow) (m : List (List Char × ProcessedRow)) (c s : List Char),
      (∃ v, (mkKey c s, v) ∈ m ∧ v.countryCode = c ∧ v.seriesCode = s) →
      (∀ row ∈ rows, mkKey row.countryCode row.seriesCode = mkKey c s →
        row.countryCode = c ∧ row.seriesCode = s) →
      ∃ v, (mkKey c s, v) ∈ rows.foldl (fun m' row =>
          mapSet m' (mkKey row.countryCode row.seriesCode) (processRow yearCols row)) m ∧
        v.countryCode = c ∧ v.seriesCode = s := by
  intro rows
  induction rows with
  | nil => intro m c s hm _; exact hm
  | cons r rs ih =>
    intro m c s hm hinj
    rw [List.foldl_cons]
    refine ih _ c s ?_ (fun row hrow => hinj row (List.mem_cons_of_mem _ hrow))
    by_cases hk : mkKey r.countryCode r.seriesCode = mkKey c s
    · obtain ⟨hc, hs⟩ := hinj r (List.mem_cons_self _ _) hk
      rw [← hc, ← hs]
      exact ⟨processRow yearCols r, self_mem_mapSet _ _ _, rfl, rfl⟩
    · obtain ⟨v, hv, h1, h2⟩ := hm
      exact ⟨v, mem_mapSet_of_ne _ _ hv (fun he => hk he.symm), h1, h2⟩

/-- Every source row's pair reaches the final `processedData` map under
the key-injectivity hypothesis. -/
theorem pipelineMap_pair_of_row (yearCols : List (List Char)) :
    ∀ (rows : List SourceRow) (m : List (List Char × ProcessedRow)) (row : SourceRow),
      row ∈ rows →
      (∀ r2 ∈ rows, mkKey r2.countryCode r2.seriesCode =
          mkKey row.countryCode row.seriesCode →
        r2.countryCode = row.countryCode ∧ r2.seriesCode = row.seriesCode) →
      ∃ v, (mkKey row.countryCode row.seriesCode, v) ∈ rows.foldl (fun m' r2 =>
          mapSet m' (mkKey r2.countryCode r2.seriesCode) (processRow yearCols r2)) m ∧
        v.countryCode = row.countryCode ∧ v.seriesCode = row.seriesCode := by
  intro rows
  induction rows with
  | nil => intro m row hmem; exact absurd hmem (List.not_mem_nil _)
  | cons r rs ih =>
    intro m row hmem hinj
    rw [List.foldl_cons]
    rcases List.mem_cons.mp hmem with rfl | hmem2
    · exact pipelineMap_pair_preserved yearCols rs _ _ _
        ⟨processRow yearCols row, self_mem_mapSet _ _ _, rfl, rfl⟩
        (fun r2 hr2 hk => hinj r2 (List.mem_cons_of_mem _ hr2) hk)
    · exact ih _ row hmem2 (fun r2 hr2 => hinj r2 (List.mem_cons_of_mem _ hr2))

/-- A present key survives a keyed fold of `Map.set`s. -/
theorem keyMem_fold_preserved {K V E : Type} [DecidableEq K] (keyf : E → K) (valf : E → V) :
    ∀ (l : List E) (cm : List (K × V)) (k0 : K),
      (∃ w, (k0, w) ∈ cm) →
      ∃ w, (k0, w) ∈ l.foldl (fun acc x => mapSet acc (keyf x) (valf x)) cm := by
  intro l
  induction l with
  | nil => intro cm k0 h; exact h
  | cons x xs ih =>
    intro cm k0 h
    rw [List.foldl_cons]
    apply ih
    obtain ⟨w, hw⟩ := h
    by_cases hk : k0 = keyf x
    · rw [hk]
      exact ⟨valf x, self_mem_mapSet _ _ _⟩
    · exact ⟨w, mem_mapSet_of_ne _ _ hw hk⟩

/-- Every processed element's key is present after a keyed fold of
`Map.set`s. -/
theorem keyMem_fold {K V E : Type} [DecidableEq K] (keyf : E → K) (valf : E → V) :
    ∀ (l : List E) (cm : List (K × V)) (e : E), e ∈ l →
      ∃ w, (keyf e, w) ∈ l.foldl (fun acc x => mapSet acc (keyf x) (valf x)) cm := by
  intro l
  induction l with
  | nil => intro cm e he; exact absurd he (List.not_mem_nil _)
  | cons x xs ih =>
    intro cm e he
    rw [List.foldl_cons]
    rcases List.mem_cons.mp he with rfl | he2
    · exact keyMem_fold_preserved _ _ xs _ _ ⟨valf e, self_mem_mapSet _ _ _⟩
    · exact ih _ e he2

/-- Entry-wise properties of a keyed fold of `Map.set`s. -/
theorem allQ_fold {K V E : Type} [DecidableEq K] (keyf : E → K) (valf : E → V)
    (Q : K × V → Prop) (hQ : ∀ e : E, Q (keyf e, valf e)) :
    ∀ (l : List E) (cm : List (K × V)), (∀ p ∈ cm, Q p) →
      ∀ p ∈ l.foldl (fun acc x => mapSet acc (keyf x) (valf x)) cm, Q p := by
  intro l
  induction l with
  | nil => intro cm hcm; exact hcm
  | cons x xs ih =>
    intro cm hcm
    rw [List.foldl_cons]
    exact ih _ (all_mapSet Q hcm (hQ x))

/-- C6 (amended): provided no two source rows' pairs collide on the
joined map key `countryCode + "-" + seriesCode`, every pair present in
the source reaches the output: its per-entity filename is written, an
index entry for exactly that pair appears (and the index holds no
duplicate pairs), and its codes appear in the countries and series
lookup tables. -/
theorem c6_roundtrip (headers : List (List Char)) (rows : List SourceRow) (c s : List Char)
    (hpair : ∃ row ∈ rows, row.countryCode = c ∧ row.seriesCode = s)
    (hinj : ∀ r1 ∈ rows, ∀ r2 ∈ rows,
      mkKey r1.countryCode r1.seriesCode = mkKey r2.countryCode r2.seriesCode →
      r1.countryCode = r2.countryCode ∧ r1.seriesCode = r2.seriesCode) :
    createFilename c s ∈ (runPipeline headers rows).dataFiles.map (fun f => f.1) ∧
    (c, s) ∈ (runPipeline headers rows).sortedIndex ∧
    (runPipeline headers rows).sortedIndex.Nodup ∧
    (∃ nc ∈ (runPipeline headers rows).countriesRecords, nc.code = c) ∧
    (∃ nc ∈ (runPipeline headers rows).seriesRecords, nc.code = s) := by
  obtain ⟨row, hrow, hc, hs⟩ := hpair
  have hv0 := pipelineMap_pair_of_row (headers.filter yearColTest) rows [] row hrow
    (fun r2 hr2 hk => hinj r2 hr2 row hrow hk)
  rw [hc, hs] at hv0
  obtain ⟨v, hv, hvc, hvs⟩ := hv0
  have hkeys := pipelineMap_nodup_keys (headers.filter yearColTest) rows [] (by simp)
  have hkr := pipelineMap_keyedRight (headers.filter yearColTest) rows [] (by simp)
  refine ⟨?_, ?_, ?_, ?_, ?_⟩
  · exact List.mem_map.mpr
      ⟨(createFilename c s, entityRecords (headers.filter yearColTest) v),
       List.mem_map.mpr ⟨(mkKey c s, v), hv, by rw [hvc, hvs]⟩, rfl⟩
  · exact ((sortByLe_perm indexLe _).mem_iff).mpr
      (List.mem_map.mpr ⟨(mkKey c s, v), hv, by rw [hvc, hvs]⟩)
  · have hnd : (fileIndexOf (pipelineMap (headers.filter yearColTest) rows)).Nodup := by
      apply List.Nodup.map_on ?_ (List.Nodup.of_map Prod.fst hkeys)
      intro x hx y hy hxy
      have h1 : x.2.countryCode = y.2.countryCode := congrArg Prod.fst hxy
      have h2 : x.2.seriesCode = y.2.seriesCode := congrArg Prod.snd hxy
      have hk : x.1 = y.1 := by
        rw [hkr x hx, hkr y hy, h1, h2]
      exact List.inj_on_of_nodup_map hkeys hx hy hk
    exact ((sortByLe_perm indexLe _).symm).nodup hnd
  · have hckey := keyMem_fold (fun (e : List Char × ProcessedRow) => e.2.countryCode)
      (fun e => NamedCode.mk e.2.countryName e.2.countryCode)
      (pipelineMap (headers.filter yearColTest) rows) [] (mkKey c s, v) hv
    obtain ⟨w, hw0⟩ := hckey
    have hw : (c, w) ∈ (pipelineMap (headers.filter yearColTest) rows).foldl
        (fun acc x => mapSet acc x.2.countryCode
          (NamedCode.mk x.2.countryName x.2.countryCode)) [] := by
      rw [← hvc]
      exact hw0
    have hwcode : w.code = c :=
      allQ_fold (fun (e : List Char × ProcessedRow) => e.2.countryCode)
        (fun e => NamedCode.mk e.2.countryName e.2.countryCode)
        (fun p => p.2.code = p.1) (fun e => rfl)
        (pipelineMap (headers.filter yearColTest) rows) [] (by simp) (c, w) hw
    exact ⟨w, ((sortByLe_perm _ _).mem_iff).mpr (List.mem_map.mpr ⟨(c, w), hw, rfl⟩), hwcode⟩
  · have hskey := keyMem_fold (fun (e : List Char × ProcessedRow) => e.2.seriesCode)
      (fun e => NamedCode.mk e.2.seriesName e.2.seriesCode)
      (pipelineMap (headers.filter yearColTest) rows) [] (mkKey c s, v) hv
    obtain ⟨w, hw0⟩ := hskey
    have hw : (s, w) ∈ (pipelineMap (headers.filter yearColTest) rows).foldl
        (fun acc x => mapSet acc x.2.seriesCode
          (NamedCode.mk x.2.seriesName x.2.seriesCode)) [] := by
      rw [← hvs]
      exact hw0
    have hwcode : w.code = s :=
      allQ_fold (fun (e : List Char × ProcessedRow) => e.2.seriesCode)
        (fun e => NamedCode.mk e.2.seriesName e.2.seriesCode)
        (fun p => p.2.code = p.1) (fun e => rfl)
        (pipelineMap (headers.filter yearColTest) rows) [] (by simp) (s, w) hw
    exact ⟨w, ((sortByLe_perm _ _).mem_iff).mpr (List.mem_map.mpr ⟨(s, w), hw, rfl⟩), hwcode⟩

/-- C6 (counterexample): the source pairs `("A","B-C")` and
`("A-B","C")` share the joined map key `A-B-C`, so the first pair is
overwritten in `processedData` and gets no index entry even though it is
present in the source. -/
theorem c6_counterexample :
    (∃ row ∈ [c6RowX, c6RowY],
      row.countryCode = "A".toList ∧ row.seriesCode = "B-C".toList) ∧
    ("A".toList, "B-C".toList) ∉ (runPipeline [] [c6RowX, c6RowY]).sortedIndex ∧
    (runPipeline [] [c6RowX, c6RowY]).sortedIndex = [("A-B".toList, "C".toList)] := by
  decide

/-- C6 (witness): the round-trip theorem applied to the Argentina
fixture's single pair. -/
theorem c6_roundtrip_witness :
    ("ARG".toList, "NY.GDP.PCAP.KD".toList) ∈
      (runPipeline c3Headers [c3Row1, c3Row2]).sortedIndex ∧
    createFilename "ARG".toList "NY.GDP.PCAP.KD".toList ∈
      (runPipeline c3Headers [c3Row1, c3Row2]).dataFiles.map (fun f => f.1) := by
  have h := c6_roundtrip c3Headers [c3Row1, c3Row2] "ARG".toList "NY.GDP.PCAP.KD".toList
    (by decide) (by decide)
  exact ⟨h.2.1, h.1⟩
